import Mathlib

/-!
Verification of the DM510 pipe-style character driver (src/dm510_dev.c)
against its natural-language specification.

The driver keeps, per device, a circular byte buffer `data` of length
`buffer_size` with indices `head` (oldest unread byte) and `tail` (next
free slot).  The buffer is empty when `head = tail` and considered full
when `(tail + 1) % BUFFER_SIZE = head`, so one slot of the buffer is
always kept unused.

We model a single device quiescently: each call runs to completion under
the semaphore, so a call is a pure function on the device state.  A call
that would block (or, with O_NONBLOCK, return -EAGAIN) is modelled as
`none`.  C `int` fields are modelled as `Nat` where the source keeps them
non-negative in every state the claims touch; `int` values that can be
negative (error returns, ioctl arguments, the used/free computations) are
modelled as `Int`.  The C casts `(size_t)(BUFFER_SIZE - x)` convert a
possibly negative `int` to a 64-bit unsigned value; `contigFrom` models
this cast with an explicit `% 2 ^ 64`.
-/

set_option maxRecDepth 100000

/-- Compile-time buffer size macro from dm510_dev.c (`#define BUFFER_SIZE 1024`). -/
def BUFFER_SIZE : Nat := 1024

theorem BUFFER_SIZE_eq : BUFFER_SIZE = 1024 := rfl

/-- Kernel error return `-EAGAIN`. -/
def EAGAIN : Int := -11

/-- Kernel error return `-ENOMEM`. -/
def ENOMEM : Int := -12

/-- Kernel error return `-EFAULT`. -/
def EFAULT : Int := -14

/-- Kernel error return `-EBUSY`. -/
def EBUSY : Int := -16

/-- Kernel error return `-EINVAL`. -/
def EINVAL : Int := -22

/-- Kernel error return `-ENOTTY`. -/
def ENOTTY : Int := -25

/-- State of one `struct dm510_device`.  `data` maps a byte index to the
byte stored there; bytes are `Nat`.  The `cdev`, semaphore and wait-queue
fields carry no quiescent state and are omitted. -/
structure Dm510 where
  data : Nat → Nat
  buffer_size : Nat
  head : Nat
  tail : Nat
  nreaders : Nat
  nwriters : Nat
  max_processes : Int

/-- Overwrite the segment `[pos, pos + bs.length)` of the byte store `f`
with the bytes of `bs`; models a `memcpy` into the buffer. -/
def updSeg (f : Nat → Nat) (pos : Nat) (bs : List Nat) : Nat → Nat :=
  fun i => if pos ≤ i ∧ i - pos < bs.length then bs.getD (i - pos) 0 else f i

/-- Models the C expression `(size_t)(BUFFER_SIZE - x)`: the `int`
difference is converted to a 64-bit unsigned `size_t`. -/
def contigFrom (x : Nat) : Nat :=
  (((BUFFER_SIZE : Int) - x) % (2 ^ 64)).toNat

/-- Access modes distinguished by `O_ACCMODE` in dm510_open/release. -/
inductive AccMode where
  | rdonly
  | wronly
  | rdwr
deriving DecidableEq, Repr

/-- `dm510_open`: write-only opens are refused with `-EBUSY` while another
writer holds the device; read-only opens bump `nreaders`; read-write opens
touch no counter.  Returns the C return value and the new state. -/
def dm510_open (dev : Dm510) (mode : AccMode) : Int × Dm510 :=
  match mode with
  | .wronly =>
      if dev.nwriters ≠ 0 then (EBUSY, dev)
      else (0, { dev with nwriters := dev.nwriters + 1 })
  | .rdonly => (0, { dev with nreaders := dev.nreaders + 1 })
  | .rdwr => (0, dev)

/-- `dm510_release`: decrements the counter bumped by open. -/
def dm510_release (dev : Dm510) (mode : AccMode) : Int × Dm510 :=
  match mode with
  | .wronly => (0, { dev with nwriters := dev.nwriters - 1 })
  | .rdonly => (0, { dev with nreaders := dev.nreaders - 1 })
  | .rdwr => (0, dev)

/-- `dm510_read` (fault-free path).  `none` models the buffer-empty case
(`head = tail`), where the call blocks or returns `-EAGAIN` with the state
unchanged.  Otherwise the copied count is clamped to the contiguous run
`tail - head` (unwrapped case) or `(size_t)(BUFFER_SIZE - head)` (wrapped
case), the bytes `data[head .. head+c)` are copied out, and
`head := (head + c) % BUFFER_SIZE`.  Note the source uses the macro
`BUFFER_SIZE`, not the `buffer_size` field. -/
def dm510_read (dev : Dm510) (count : Nat) : Option (List Nat × Dm510) :=
  if dev.head = dev.tail then none
  else
    let c := if dev.head < dev.tail then min count (dev.tail - dev.head)
             else min count (contigFrom dev.head)
    some ((List.range c).map (fun i => dev.data (dev.head + i)),
          { dev with head := (dev.head + c) % BUFFER_SIZE })

/-- The `copy_to_user` failure path of `dm510_read` (lines 93-96): the
call returns `-EFAULT` via `out:` without advancing `head`, so the device
state is unchanged.  `none` again models the buffer-empty wait. -/
def dm510_read_fault (dev : Dm510) (_count : Nat) : Option (Int × Dm510) :=
  if dev.head = dev.tail then none
  else some (EFAULT, dev)

/-- `dm510_write` (fault-free path).  `none` models the buffer-full case
(`(tail + 1) % BUFFER_SIZE = head`), where the call blocks or returns
`-EAGAIN`.  Otherwise the count is clamped only to the contiguous run
`(size_t)(BUFFER_SIZE - tail)` (the source never clamps to the free
space), the first `c` bytes of `buf` are copied to `data[tail .. tail+c)`,
and `tail := (tail + c) % BUFFER_SIZE`.  Returns the copied count. -/
def dm510_write (dev : Dm510) (buf : List Nat) : Option (Nat × Dm510) :=
  if (dev.tail + 1) % BUFFER_SIZE = dev.head then none
  else
    let c := min buf.length (contigFrom dev.tail)
    some (c, { dev with
      data := updSeg dev.data dev.tail (buf.take c),
      tail := (dev.tail + c) % BUFFER_SIZE })

/-- The `copy_from_user` failure path of `dm510_write` (lines 125-128):
`copied` is the number of bytes the partial user copy transferred into the
buffer before faulting (at most the clamped count); the call returns
`-EFAULT` without advancing `tail`. -/
def dm510_write_fault (dev : Dm510) (buf : List Nat) (copied : Nat) :
    Option (Int × Dm510) :=
  if (dev.tail + 1) % BUFFER_SIZE = dev.head then none
  else
    let c := min buf.length (contigFrom dev.tail)
    some (EFAULT, { dev with data := updSeg dev.data dev.tail (buf.take (min copied c)) })

/-- The `GET_BUFFER_USED_SPACE` ioctl computation (lines 200-213), as a C
`int` value. -/
def used_space (dev : Dm510) : Int :=
  if dev.tail ≥ dev.head then (dev.tail : Int) - dev.head
  else (dev.buffer_size : Int) - ((dev.head : Int) - dev.tail)

/-- The `GET_BUFFER_FREE_SPACE` ioctl computation (lines 185-198), as a C
`int` value. -/
def free_space (dev : Dm510) : Int :=
  if dev.tail ≥ dev.head then (dev.buffer_size : Int) - ((dev.tail : Int) - dev.head) - 1
  else ((dev.head : Int) - dev.tail) - 1

/-- The `GET_BUFFER_SIZE` ioctl result. -/
def get_buffer_size (dev : Dm510) : Int := (dev.buffer_size : Int)

/-- The `SET_BUFFER_SIZE` ioctl (lines 148-175), allocation assumed to
succeed.  Rejects `new_size ≤ 0` and `new_size < used_space` with
`-EINVAL` (the same code in both cases) and the state unchanged; on
success it installs a freshly zeroed buffer (the live bytes are NOT
copied), sets `head := 0`, `tail := used_space` and
`buffer_size := new_size`. -/
def set_buffer_size (dev : Dm510) (new_size : Int) : Int × Dm510 :=
  if new_size ≤ 0 then (EINVAL, dev)
  else
    let us : Int := if dev.tail ≥ dev.head then (dev.tail : Int) - dev.head
                    else (dev.buffer_size : Int) - dev.head + dev.tail
    if new_size < us then (EINVAL, dev)
    else (0, { dev with
      data := fun _ => 0,
      buffer_size := new_size.toNat,
      head := 0,
      tail := us.toNat })

/-- The `SET_MAX_NR_PROCESSES` ioctl (lines 180-184): stores the argument
into `max_processes` and returns 0 (fault-free path). -/
def set_max_processes (dev : Dm510) (arg : Int) : Int × Dm510 :=
  (0, { dev with max_processes := arg })

/-- The `GET_MAX_NR_PROCESSES` ioctl result. -/
def get_max_processes (dev : Dm510) : Int := dev.max_processes

/-- Device state installed by `buffer_init` (plus the zero-initialised
static `max_processes`): zeroed 1024-byte buffer, `head = tail = 0`, no
readers or writers. -/
def fresh0 : Dm510 :=
  { data := fun _ => 0
  , buffer_size := BUFFER_SIZE
  , head := 0
  , tail := 0
  , nreaders := 0
  , nwriters := 0
  , max_processes := 0 }

/-- The device state reached from fresh by: write 4 bytes, read them
back, then write 1020 bytes.  It has `head = 4`, `tail = 0`, 1020 unread
bytes (all 5) occupying indices 4..1023. -/
def nearFullState : Option Dm510 :=
  (dm510_write fresh0 [1, 2, 3, 4]).bind fun p1 =>
  (dm510_read p1.2 4).bind fun p2 =>
  (dm510_write p2.2 (List.replicate 1020 5)).map fun p3 => p3.2

/-- The device state reached from fresh by: write 1020 bytes of 1, read
them all, then write 1,2,3,4 (which lands at indices 1020..1023) and
5,6,7,8 (which lands at indices 0..3).  The 8 unread bytes wrap around
the end of the buffer: `head = 1020`, `tail = 4`. -/
def wrappedState : Option Dm510 :=
  (dm510_write fresh0 (List.replicate 1020 1)).bind fun p1 =>
  (dm510_read p1.2 1020).bind fun p2 =>
  (dm510_write p2.2 [1, 2, 3, 4]).bind fun p3 =>
  (dm510_write p3.2 [5, 6, 7, 8]).map fun p4 => p4.2

/-- C2 (code_bug): in the near-full state (`head = 4`, `tail = 0`,
`used_space = 1020`, so only 4 bytes of room in the claim's sense), a
write of 10 bytes reports 10 bytes copied and overwrites the oldest
unread byte: `data 4` changes from 5 to 9.  `dm510_write` clamps the
count only to `BUFFER_SIZE - tail`, never to the free space, contrary to
the spec's `min(max_len, capacity - used, capacity - tail)`. -/
theorem write_overwrites_unread :
    nearFullState.map (fun d => (d.head, d.tail, used_space d, d.data 4)) =
      some (4, 0, 1020, 5) ∧
    nearFullState.bind
        (fun d => (dm510_write d (List.replicate 10 9)).map (fun p => (p.1, p.2.data 4))) =
      some (10, 9) := by
  constructor
  · rfl
  · rfl

/-- C3 (code_bug): writing bytes 65, 66, then resizing the buffer to 4
(which succeeds, returning 0) and reading 2 bytes yields two zero bytes,
not 65, 66; without the resize the same read yields 65, 66.
`SET_BUFFER_SIZE` installs a zeroed buffer and never copies the live
bytes, while still setting `tail = used_space` as if they were kept. -/
theorem resize_loses_data :
    ((dm510_write fresh0 [65, 66]).map (fun p => (set_buffer_size p.2 4).1)) = some 0 ∧
    ((dm510_write fresh0 [65, 66]).bind
        (fun p => (dm510_read (set_buffer_size p.2 4).2 2).map Prod.fst)) = some [0, 0] ∧
    ((dm510_write fresh0 [65, 66]).bind
        (fun p => (dm510_read p.2 2).map Prod.fst)) = some [65, 66] := by
  refine ⟨rfl, rfl, rfl⟩

/-- C5 (counterexample to distinctness): after writing 2 bytes, a resize
to 1 (structurally valid but smaller than the 2 used bytes) and a resize
to -5 (invalid) both return the same value -22 (`-EINVAL`); the code has
no outcome distinct from Invalid for the data-loss rejection. -/
theorem reject_not_distinct_cex :
    ((dm510_write fresh0 [1, 2]).map
        (fun p => ((set_buffer_size p.2 1).1, (set_buffer_size p.2 (-5)).1))) =
      some (-22, -22) := by
  rfl

/-- C6 (code_bug): write 4 bytes, resize to 4 (succeeds: 4 used bytes fit
exactly), then read 4 bytes.  The read reports 4 bytes and leaves
`head = 4` with `buffer_size = 4`, because it advances
`head = (head + count) % BUFFER_SIZE` with the macro value 1024 instead
of the current capacity 4; the claim requires `head = (0 + 4) % 4 = 0`. -/
theorem read_stale_capacity_bug :
    ((dm510_write fresh0 [1, 2, 3, 4]).bind
        (fun p => (dm510_read (set_buffer_size p.2 4).2 4).map
          (fun q => (q.1.length, q.2.head, q.2.buffer_size)))) = some (4, 4, 4) ∧
    (0 + 4) % 4 ≠ 4 := by
  exact ⟨rfl, by decide⟩

/-- C7 (counterexample): in the wrapped state there are 8 unread bytes
(`used = 8`) but a read requesting 8 returns only the 4 bytes up to the
end of the buffer; `dm510_read` copies a single contiguous run and never
loops across the wrap boundary, so it does not return
`min(requested_len, used) = 8`. -/
theorem read_wrap_cex :
    (wrappedState.map (fun d => (d.head, d.tail))) = some (1020, 4) ∧
    (wrappedState.bind (fun d => (dm510_read d 8).map Prod.fst)) = some [1, 2, 3, 4] ∧
    ([1, 2, 3, 4] : List Nat).length ≠ min 8 8 := by
  refine ⟨rfl, rfl, by decide⟩

/-- C8 (counterexample): a second write-only open, made while one writer
already holds the device, returns -16 (`-EBUSY`), not success; the open
path does limit concurrent writers. -/
theorem open_busy_cex :
    (dm510_open (dm510_open fresh0 AccMode.wronly).2 AccMode.wronly).1 = -16 ∧
    (-16 : Int) ≠ 0 := by
  exact ⟨rfl, by decide⟩

/-- C9 (counterexample): with two unread bytes available, a read whose
user-buffer copy faults returns -14 (`-EFAULT`), a total-failure error
code, not a count of bytes transferred before the fault. -/
theorem fault_total_failure_cex :
    ((dm510_write fresh0 [1, 2, 3, 4]).bind
        (fun p => dm510_read_fault p.2 2)).map Prod.fst = some (-14) ∧
    (-14 : Int) < 0 := by
  exact ⟨rfl, by decide⟩

/-- C1 (counterexample): a single write of 1024 bytes — exactly the
capacity — reports all 1024 bytes copied, yet the following read of 1024
bytes finds the buffer empty (`tail` wrapped back onto `head`) and
blocks, so the bytes read do not equal the bytes written. -/
theorem fifo_capacity_cex :
    (dm510_write fresh0 (List.replicate 1024 7)).map Prod.fst = some 1024 ∧
    (dm510_write fresh0 (List.replicate 1024 7)).bind (fun p => dm510_read p.2 1024) =
      none := by
  exact ⟨rfl, rfl⟩

theorem updSeg_lt (f : Nat → Nat) (pos : Nat) (bs : List Nat) (i : Nat)
    (h : i < pos) : updSeg f pos bs i = f i := by
  unfold updSeg
  rw [if_neg]
  omega

theorem updSeg_ge (f : Nat → Nat) (pos : Nat) (bs : List Nat) (i : Nat)
    (h : pos + bs.length ≤ i) : updSeg f pos bs i = f i := by
  unfold updSeg
  rw [if_neg]
  omega

theorem updSeg_in (f : Nat → Nat) (pos : Nat) (bs : List Nat) (i : Nat)
    (h1 : pos ≤ i) (h2 : i - pos < bs.length) :
    updSeg f pos bs i = bs.getD (i - pos) 0 := by
  unfold updSeg
  rw [if_pos ⟨h1, h2⟩]

theorem contigFrom_eq (x : Nat) (h : x ≤ BUFFER_SIZE) :
    contigFrom x = BUFFER_SIZE - x := by
  have hb : BUFFER_SIZE = 1024 := rfl
  have hp : (2 : Int) ^ 64 = 18446744073709551616 := by norm_num
  have h1 : (0 : Int) ≤ (BUFFER_SIZE : Int) - x := by omega
  have h2 : (BUFFER_SIZE : Int) - x < 2 ^ 64 := by rw [hb] at h ⊢; rw [hp]; push_cast; omega
  unfold contigFrom
  rw [Int.emod_eq_of_lt h1 h2]
  omega

theorem getD_append_lt (l m : List Nat) (i : Nat) (h : i < l.length) :
    (l ++ m).getD i 0 = l.getD i 0 := by
  induction l generalizing i with
  | nil => simp at h
  | cons a l ih =>
    cases i with
    | zero => rfl
    | succ j => simpa using ih j (by simpa using h)

theorem getD_append_right_my (l m : List Nat) (i : Nat) :
    (l ++ m).getD (l.length + i) 0 = m.getD i 0 := by
  induction l with
  | nil => simp
  | cons a l ih => simpa [Nat.succ_add] using ih

theorem getD_drop_my (l : List Nat) (n i : Nat) :
    (l.drop n).getD i 0 = l.getD (n + i) 0 := by
  induction l generalizing n with
  | nil => simp
  | cons a l ih =>
    cases n with
    | zero => simp
    | succ k => simp [Nat.succ_add, ih k]

theorem map_range_eq_take (l : List Nat) :
    ∀ (n : Nat) (f : Nat → Nat), n ≤ l.length →
      (∀ i, i < n → f i = l.getD i 0) → (List.range n).map f = l.take n := by
  induction l with
  | nil =>
    intro n f hn _
    have : n = 0 := Nat.le_zero.mp hn
    subst this
    simp
  | cons a l ih =>
    intro n f hn hf
    cases n with
    | zero => simp
    | succ m =>
      rw [List.range_succ_eq_map, List.map_cons, List.map_map, List.take_succ_cons]
      have h0 : f 0 = a := by simpa using hf 0 (Nat.succ_pos m)
      have hrec : (List.range m).map (f ∘ Nat.succ) = l.take m := by
        refine ih m (f ∘ Nat.succ) (Nat.le_of_succ_le_succ hn) ?_
        intro i hi
        simpa using hf (i + 1) (by omega)
      rw [h0, hrec]

/-- A fault-free write into the unwrapped region: with `head = 0`,
`tail = L`, and the new bytes fitting below the reserved slot, the write
copies all of `buf` at offset `L` and advances `tail` without wrapping. -/
theorem dm510_write_linear (d : Dm510) (buf : List Nat) (L : Nat)
    (hh : d.head = 0) (ht : d.tail = L)
    (hbound : L + buf.length ≤ BUFFER_SIZE - 1) (hne : buf ≠ []) :
    dm510_write d buf = some (buf.length,
      { d with data := updSeg d.data L buf, tail := L + buf.length }) := by
  have hb : BUFFER_SIZE = 1024 := rfl
  have hlen : 1 ≤ buf.length := List.length_pos.mpr hne
  have hcf : contigFrom d.tail = BUFFER_SIZE - L := by
    rw [ht]; exact contigFrom_eq L (by omega)
  have hmin : min buf.length (contigFrom d.tail) = buf.length := by
    rw [hcf]; omega
  simp only [dm510_write]
  rw [if_neg (by rw [ht, hh, Nat.mod_eq_of_lt (by omega)]; omega)]
  rw [hmin, List.take_length, ht, Nat.mod_eq_of_lt (by omega)]

/-- A fault-free read of an unwrapped pending region: with `head = h`,
`tail = t = h + pending.length`, the read returns the first `n` pending
bytes and advances `head` to `h + n`. -/
theorem dm510_read_linear (d : Dm510) (pending : List Nat) (h t n : Nat)
    (hh : d.head = h) (ht : d.tail = t) (hpend : h + pending.length = t)
    (htb : t ≤ BUFFER_SIZE - 1) (hn1 : 1 ≤ n) (hn2 : n ≤ pending.length)
    (hdat : ∀ i, i < pending.length → d.data (h + i) = pending.getD i 0) :
    dm510_read d n = some (pending.take n, { d with head := h + n }) := by
  have hb : BUFFER_SIZE = 1024 := rfl
  have hht : h < t := by omega
  simp only [dm510_read]
  rw [hh, ht, if_neg (by omega), if_pos hht]
  have hmin : min n (t - h) = n := by omega
  rw [hmin, Nat.mod_eq_of_lt (by omega)]
  have hmap : (List.range n).map (fun i => d.data (h + i)) = pending.take n := by
    refine map_range_eq_take pending n _ hn2 ?_
    intro i hi
    exact hdat i (by omega)
  rw [hmap]

/-- Run a sequence of writes; `none` if any of them would block. -/
def writeSeq (d : Dm510) : List (List Nat) → Option Dm510
  | [] => some d
  | buf :: rest => (dm510_write d buf).bind (fun p => writeSeq p.2 rest)

/-- Run a sequence of reads with the given request sizes, concatenating
the bytes they return; `none` if any of them would block. -/
def readSeq (d : Dm510) : List Nat → Option (List Nat × Dm510)
  | [] => some ([], d)
  | n :: rest => (dm510_read d n).bind (fun p =>
      (readSeq p.2 rest).map (fun q => (p.1 ++ q.1, q.2)))

/-- Concatenation of the byte lists supplied to a sequence of writes. -/
def joinAll : List (List Nat) → List Nat
  | [] => []
  | w :: ws => w ++ joinAll ws

/-- Total number of bytes supplied to a sequence of writes. -/
def totalLen (ws : List (List Nat)) : Nat := (joinAll ws).length

theorem writeSeq_linear : ∀ (ws : List (List Nat)) (d : Dm510) (L : Nat),
    d.head = 0 → d.tail = L → L + totalLen ws ≤ BUFFER_SIZE - 1 →
    (∀ w ∈ ws, w ≠ []) →
    ∃ d', writeSeq d ws = some d' ∧ d'.head = 0 ∧ d'.tail = L + totalLen ws ∧
      d'.buffer_size = d.buffer_size ∧
      (∀ i, i < L → d'.data i = d.data i) ∧
      (∀ i, i < totalLen ws → d'.data (L + i) = (joinAll ws).getD i 0) := by
  intro ws
  induction ws with
  | nil =>
    intro d L hh ht hb hw
    refine ⟨d, rfl, hh, ?_, rfl, fun i _ => rfl, fun i hi => ?_⟩
    · simpa [totalLen, joinAll] using ht
    · simp [totalLen, joinAll] at hi
  | cons w ws ih =>
    intro d L hh ht hb hw
    have hwne : w ≠ [] := hw w (by simp)
    have htl : totalLen (w :: ws) = w.length + totalLen ws := by
      simp [totalLen, joinAll]
    have hwlen : 1 ≤ w.length := List.length_pos.mpr hwne
    rw [htl] at hb
    have hw1 := dm510_write_linear d w L hh ht (by omega) hwne
    obtain ⟨d', hrun, hh', ht', hbs', hpres, hcont⟩ :=
      ih { d with data := updSeg d.data L w, tail := L + w.length } (L + w.length)
        hh rfl (by omega) (fun x hx => hw x (by simp [hx]))
    refine ⟨d', ?_, hh', ?_, hbs', ?_, ?_⟩
    · show writeSeq d (w :: ws) = some d'
      simp only [writeSeq]
      rw [hw1]
      simpa using hrun
    · rw [ht', htl]; omega
    · intro i hi
      have h1 : d'.data i = updSeg d.data L w i := hpres i (by omega)
      rw [h1, updSeg_lt d.data L w i hi]
    · intro i hi
      rw [htl] at hi
      by_cases hcase : i < w.length
      · have h1 : d'.data (L + i) = updSeg d.data L w (L + i) := hpres (L + i) (by omega)
        rw [h1, updSeg_in d.data L w (L + i) (by omega) (by omega)]
        have h2 : L + i - L = i := by omega
        rw [h2]
        show w.getD i 0 = (joinAll (w :: ws)).getD i 0
        rw [joinAll]
        rw [getD_append_lt w (joinAll ws) i hcase]
      · have h2 : L + i = (L + w.length) + (i - w.length) := by omega
        rw [h2, hcont (i - w.length) (by omega)]
        show (joinAll ws).getD (i - w.length) 0 = (joinAll (w :: ws)).getD i 0
        rw [joinAll]
        have h4 := getD_append_right_my w (joinAll ws) (i - w.length)
        rw [← h4]
        congr 1
        omega

theorem readSeq_linear : ∀ (rs : List Nat) (d : Dm510) (h t : Nat) (pending : List Nat),
    d.head = h → d.tail = t → h + pending.length = t → t ≤ BUFFER_SIZE - 1 →
    (∀ i, i < pending.length → d.data (h + i) = pending.getD i 0) →
    (∀ n ∈ rs, 1 ≤ n) → rs.sum = pending.length →
    (readSeq d rs).map Prod.fst = some pending := by
  intro rs
  induction rs with
  | nil =>
    intro d h t pending hh ht hpend htb hdat hr hsum
    have : pending = [] := List.length_eq_zero.mp (by simpa using hsum.symm)
    subst this
    rfl
  | cons n rest ih =>
    intro d h t pending hh ht hpend htb hdat hr hsum
    have hn1 : 1 ≤ n := hr n (by simp)
    have hsum' : n + rest.sum = pending.length := by simpa using hsum
    have hn2 : n ≤ pending.length := by omega
    have hread := dm510_read_linear d pending h t n hh ht hpend htb hn1 hn2 hdat
    have hrec : (readSeq { d with head := h + n } rest).map Prod.fst =
        some (pending.drop n) := by
      refine ih { d with head := h + n } (h + n) t (pending.drop n) rfl ht ?_ htb ?_
        (fun x hx => hr x (by simp [hx])) ?_
      · simp only [List.length_drop]; omega
      · intro i hi
        show d.data (h + n + i) = (pending.drop n).getD i 0
        rw [getD_drop_my]
        have h1 : h + n + i = h + (n + i) := by omega
        rw [h1]
        refine hdat (n + i) ?_
        simp only [List.length_drop] at hi
        omega
      · simp only [List.length_drop]; omega
    obtain ⟨q, hq, hq1⟩ := Option.map_eq_some'.mp hrec
    show (readSeq d (n :: rest)).map Prod.fst = some pending
    simp only [readSeq]
    rw [hread]
    show ((readSeq { d with head := h + n } rest).map
        (fun v => (pending.take n ++ v.1, v.2))).map Prod.fst = some pending
    rw [hq]
    show some (pending.take n ++ q.1) = some pending
    rw [hq1, List.take_append_drop]

/-- C1 (amended): for every sequence of non-empty writes totaling at most
`BUFFER_SIZE - 1` bytes applied to the fresh device, followed by
non-empty read requests totaling exactly the written length, the
concatenation of the bytes returned by the reads equals the concatenation
of the bytes supplied to the writes (FIFO byte stream).  The original
bound "at most capacity bytes" fails at exactly `BUFFER_SIZE` bytes
because one buffer slot is reserved to distinguish full from empty. -/
theorem fifo_amended (ws : List (List Nat)) (rs : List Nat)
    (hw : ∀ w ∈ ws, w ≠ []) (hr : ∀ n ∈ rs, 1 ≤ n)
    (hcap : totalLen ws ≤ BUFFER_SIZE - 1) (hsum : rs.sum = totalLen ws) :
    (writeSeq fresh0 ws).bind (fun d => (readSeq d rs).map Prod.fst) =
      some (joinAll ws) := by
  obtain ⟨d1, hrun, hh, ht, hbs, hpres, hcont⟩ :=
    writeSeq_linear ws fresh0 0 rfl rfl (by omega) hw
  rw [hrun]
  show (readSeq d1 rs).map Prod.fst = some (joinAll ws)
  refine readSeq_linear rs d1 0 (totalLen ws) (joinAll ws) hh (by omega) ?_ hcap ?_ hr hsum
  · show 0 + (joinAll ws).length = totalLen ws
    simp [totalLen]
  · intro i hi
    exact hcont i hi

/-- Witness for `fifo_amended` at a concrete instance: writes of 1,2 then
3, reads requesting 1 then 2 bytes, returning 1,2,3. -/
theorem fifo_amended_witness :
    (∀ w ∈ ([[1, 2], [3]] : List (List Nat)), w ≠ []) ∧
    (∀ n ∈ ([1, 2] : List Nat), 1 ≤ n) ∧
    totalLen [[1, 2], [3]] ≤ BUFFER_SIZE - 1 ∧
    List.sum [1, 2] = totalLen [[1, 2], [3]] ∧
    (writeSeq fresh0 [[1, 2], [3]]).bind (fun d => (readSeq d [1, 2]).map Prod.fst) =
      some (joinAll [[1, 2], [3]]) :=
  ⟨by decide, by decide, by decide, by decide,
    fifo_amended [[1, 2], [3]] [1, 2] (by decide) (by decide) (by decide) (by decide)⟩

/-- C4 (counterexample): already at the freshly initialised device (an
empty operation sequence, quiescent), free space (1023) plus used space
(0) is 1023, not the capacity 1024: one buffer slot is permanently
reserved to distinguish full from empty. -/
theorem space_sum_cex :
    free_space fresh0 + used_space fresh0 = 1023 ∧
    get_buffer_size fresh0 = 1024 ∧ (1023 : Int) ≠ 1024 := by
  refine ⟨by decide, by decide, by decide⟩

/-- A device whose buffer holds two unread bytes at indices 0 and 1. -/
def devUsed2 : Dm510 :=
  { data := fun _ => 0
  , buffer_size := 1024
  , head := 0
  , tail := 2
  , nreaders := 0
  , nwriters := 0
  , max_processes := 0 }

/-- C5 (amended): a structurally valid resize request smaller than the
current used byte count is refused with `-EINVAL` — the same error code
used for `new_size ≤ 0`, not a distinct outcome — and the device state
(capacity, head, tail, buffered bytes) is returned unchanged. -/
theorem set_capacity_reject_amended (dev : Dm510) (new : Int)
    (h1 : 0 < new) (h2 : new < used_space dev) :
    set_buffer_size dev new = (EINVAL, dev) := by
  have hus : (if dev.tail ≥ dev.head then (dev.tail : Int) - dev.head
      else (dev.buffer_size : Int) - dev.head + dev.tail) = used_space dev := by
    unfold used_space
    by_cases hc : dev.tail ≥ dev.head
    · rw [if_pos hc, if_pos hc]
    · rw [if_neg hc, if_neg hc]; ring
  simp only [set_buffer_size]
  rw [if_neg (by omega), hus, if_pos h2]

/-- Witness for `set_capacity_reject_amended`: resizing a device with 2
used bytes down to 1 returns `-EINVAL` with the state unchanged. -/
theorem set_capacity_reject_witness :
    (0 : Int) < 1 ∧ (1 : Int) < used_space devUsed2 ∧
    set_buffer_size devUsed2 1 = (EINVAL, devUsed2) :=
  ⟨by decide, by decide, set_capacity_reject_amended devUsed2 1 (by decide) (by decide)⟩

/-- The unread byte count implied by `head` and `tail` under the
compile-time wrap modulus `BUFFER_SIZE` that `dm510_read` and
`dm510_write` actually use. -/
def usedNat (dev : Dm510) : Nat :=
  if dev.head ≤ dev.tail then dev.tail - dev.head
  else BUFFER_SIZE - dev.head + dev.tail

/-- C7 (amended): a single read call copies one contiguous run only: on a
non-empty buffer with in-range indices it returns exactly
`min(requested_len, used, BUFFER_SIZE - head)` bytes.  When the unread
bytes wrap past the end of the buffer this is less than
`min(requested_len, used)`; the call never loops across the wrap
boundary, the caller must issue a second read. -/
theorem read_contiguous_amended (dev : Dm510) (req : Nat)
    (hh : dev.head < BUFFER_SIZE) (ht : dev.tail < BUFFER_SIZE)
    (hne : dev.head ≠ dev.tail) :
    (dm510_read dev req).map (fun p => p.1.length) =
      some (min req (min (usedNat dev) (BUFFER_SIZE - dev.head))) := by
  simp only [dm510_read]
  rw [if_neg hne]
  by_cases hc : dev.head < dev.tail
  · rw [if_pos hc]
    simp only [Option.map_some', List.length_map, List.length_range]
    unfold usedNat
    rw [if_pos (le_of_lt hc)]
    congr 1
    omega
  · rw [if_neg hc]
    rw [contigFrom_eq dev.head (by omega)]
    simp only [Option.map_some', List.length_map, List.length_range]
    unfold usedNat
    rw [if_neg (by omega)]
    congr 1
    omega

/-- Witness for `read_contiguous_amended`: a request of 5 on a buffer
holding 2 unwrapped bytes returns `min 5 (min 2 1024) = 2` bytes. -/
theorem read_contiguous_witness :
    devUsed2.head < BUFFER_SIZE ∧ devUsed2.tail < BUFFER_SIZE ∧
    devUsed2.head ≠ devUsed2.tail ∧
    (dm510_read devUsed2 5).map (fun p => p.1.length) =
      some (min 5 (min (usedNat devUsed2) (BUFFER_SIZE - devUsed2.head))) :=
  ⟨by decide, by decide, by decide,
    read_contiguous_amended devUsed2 5 (by decide) (by decide) (by decide)⟩

/-- C8 (amended): read-only and read-write opens always succeed whatever
the current reader and writer counts are, but a write-only open succeeds
only when no writer holds the device, returning `-EBUSY` otherwise:
`dm510_open` does enforce a single-writer limit. -/
theorem open_policy_amended (dev : Dm510) :
    (dm510_open dev AccMode.rdonly).1 = 0 ∧
    (dm510_open dev AccMode.rdwr).1 = 0 ∧
    (dm510_open dev AccMode.wronly).1 = (if dev.nwriters = 0 then 0 else EBUSY) := by
  refine ⟨rfl, rfl, ?_⟩
  by_cases hc : dev.nwriters = 0
  · simp [dm510_open, hc]
  · simp [dm510_open, hc]

/-- C9 (amended): a faulting user-buffer copy makes the call return
`-EFAULT` immediately and leaves `head`, `tail` and the capacity
unchanged: no bytes are consumed by a faulting read and no partially
copied bytes are committed by a faulting write, and no partial byte count
is reported. -/
theorem fault_state_unchanged_amended (dev : Dm510) (count copied : Nat)
    (buf : List Nat) (hr : dev.head ≠ dev.tail)
    (hw : (dev.tail + 1) % BUFFER_SIZE ≠ dev.head) :
    dm510_read_fault dev count = some (EFAULT, dev) ∧
    (dm510_write_fault dev buf copied).map
        (fun p => (p.1, p.2.head, p.2.tail, p.2.buffer_size)) =
      some (EFAULT, dev.head, dev.tail, dev.buffer_size) := by
  constructor
  · simp only [dm510_read_fault]
    rw [if_neg hr]
  · simp only [dm510_write_fault]
    rw [if_neg hw]
    rfl

/-- Witness for `fault_state_unchanged_amended` on a device with 2 unread
bytes, a faulting read of 1 and a faulting write of 9,9 with 1 byte
partially copied. -/
theorem fault_state_unchanged_witness :
    devUsed2.head ≠ devUsed2.tail ∧
    (devUsed2.tail + 1) % BUFFER_SIZE ≠ devUsed2.head ∧
    (dm510_read_fault devUsed2 1 = some (EFAULT, devUsed2) ∧
      (dm510_write_fault devUsed2 [9, 9] 1).map
          (fun p => (p.1, p.2.head, p.2.tail, p.2.buffer_size)) =
        some (EFAULT, devUsed2.head, devUsed2.tail, devUsed2.buffer_size)) :=
  ⟨by decide, by decide,
    fault_state_unchanged_amended devUsed2 1 1 [9, 9] (by decide) (by decide)⟩

/-- The driver calls a user process can issue against one device, with
their arguments. -/
inductive Op where
  | doRead (n : Nat)
  | doWrite (buf : List Nat)
  | doOpen (m : AccMode)
  | doResize (n : Int)
  | doSetMax (n : Int)

/-- True exactly for the `SET_BUFFER_SIZE` resize operation. -/
def Op.isResize : Op → Bool
  | .doResize _ => true
  | _ => false

/-- True for the open, read and write operations. -/
def Op.isUserOp : Op → Bool
  | .doRead _ => true
  | .doWrite _ => true
  | .doOpen _ => true
  | _ => false

/-- Run one driver call to completion.  A read or write that would block
is modelled by its O_NONBLOCK behaviour: return `-EAGAIN` and leave the
state unchanged.  The result is the C return value paired with the bytes
delivered to the caller (empty except for a successful read). -/
def runStep (d : Dm510) : Op → (Int × List Nat) × Dm510
  | .doRead n =>
    match dm510_read d n with
    | none => ((EAGAIN, []), d)
    | some (out, d') => (((out.length : Int), out), d')
  | .doWrite buf =>
    match dm510_write d buf with
    | none => ((EAGAIN, []), d)
    | some (c, d') => (((c : Int), []), d')
  | .doOpen m => (((dm510_open d m).1, []), (dm510_open d m).2)
  | .doResize n => (((set_buffer_size d n).1, []), (set_buffer_size d n).2)
  | .doSetMax n => (((set_max_processes d n).1, []), (set_max_processes d n).2)

/-- Run a sequence of driver calls, collecting each call's result. -/
def runOps (d : Dm510) : List Op → List (Int × List Nat) × Dm510
  | [] => ([], d)
  | o :: rest =>
    ((runStep d o).1 :: (runOps (runStep d o).2 rest).1, (runOps (runStep d o).2 rest).2)

/-- States whose indices are in range for the compile-time buffer and
whose capacity still equals the compile-time buffer size (as holds
whenever no resize has happened). -/
def WellFormed (d : Dm510) : Prop :=
  d.head < BUFFER_SIZE ∧ d.tail < BUFFER_SIZE ∧ d.buffer_size = BUFFER_SIZE

theorem dm510_read_shape (d : Dm510) (n : Nat) (out : List Nat) (d' : Dm510)
    (hrd : dm510_read d n = some (out, d')) :
    d'.head < BUFFER_SIZE ∧ d'.tail = d.tail ∧ d'.buffer_size = d.buffer_size := by
  simp only [dm510_read] at hrd
  by_cases hc : d.head = d.tail
  · rw [if_pos hc] at hrd
    exact Option.noConfusion hrd
  · rw [if_neg hc] at hrd
    rw [Option.some.injEq, Prod.mk.injEq] at hrd
    obtain ⟨hout, hstate⟩ := hrd
    subst hstate
    exact ⟨Nat.mod_lt _ (by decide), rfl, rfl⟩

theorem dm510_write_shape (d : Dm510) (buf : List Nat) (c : Nat) (d' : Dm510)
    (hwr : dm510_write d buf = some (c, d')) :
    d'.head = d.head ∧ d'.tail < BUFFER_SIZE ∧ d'.buffer_size = d.buffer_size := by
  simp only [dm510_write] at hwr
  by_cases hc : (d.tail + 1) % BUFFER_SIZE = d.head
  · rw [if_pos hc] at hwr
    exact Option.noConfusion hwr
  · rw [if_neg hc] at hwr
    rw [Option.some.injEq, Prod.mk.injEq] at hwr
    obtain ⟨hcnt, hstate⟩ := hwr
    subst hstate
    exact ⟨rfl, Nat.mod_lt _ (by decide), rfl⟩

theorem runStep_wf (d : Dm510) (o : Op) (hwf : WellFormed d)
    (ho : o.isResize = false) : WellFormed (runStep d o).2 := by
  obtain ⟨h1, h2, h3⟩ := hwf
  cases o with
  | doRead n =>
    simp only [runStep]
    cases hrd : dm510_read d n with
    | none => exact ⟨h1, h2, h3⟩
    | some p =>
      obtain ⟨out, d'⟩ := p
      obtain ⟨g1, g2, g3⟩ := dm510_read_shape d n out d' hrd
      exact ⟨g1, g2 ▸ h2, g3 ▸ h3⟩
  | doWrite buf =>
    simp only [runStep]
    cases hwr : dm510_write d buf with
    | none => exact ⟨h1, h2, h3⟩
    | some p =>
      obtain ⟨c, d'⟩ := p
      obtain ⟨g1, g2, g3⟩ := dm510_write_shape d buf c d' hwr
      exact ⟨g1 ▸ h1, g2, g3 ▸ h3⟩
  | doOpen m =>
    cases m with
    | rdonly => exact ⟨h1, h2, h3⟩
    | wronly =>
      simp only [runStep, dm510_open]
      by_cases hc : d.nwriters ≠ 0
      · rw [if_pos hc]; exact ⟨h1, h2, h3⟩
      · rw [if_neg hc]; exact ⟨h1, h2, h3⟩
    | rdwr => exact ⟨h1, h2, h3⟩
  | doResize n => simp [Op.isResize] at ho
  | doSetMax n => exact ⟨h1, h2, h3⟩

theorem runOps_wf : ∀ (ops : List Op) (d : Dm510), WellFormed d →
    (∀ o ∈ ops, o.isResize = false) → WellFormed (runOps d ops).2 := by
  intro ops
  induction ops with
  | nil => intro d hwf _; exact hwf
  | cons o rest ih =>
    intro d hwf hops
    exact ih (runStep d o).2 (runStep_wf d o hwf (hops o (by simp)))
      (fun x hx => hops x (by simp [hx]))

/-- C4 (amended): after every sequence of open, read, write and
set-max-processes operations on the fresh device — no resize — the used
space satisfies `0 ≤ used ≤ capacity`, and free space plus used space
equals the capacity MINUS ONE: the driver permanently reserves one buffer
slot to tell a full buffer from an empty one.  (With a resize in the
sequence even `used ≤ capacity` can fail, since read and write keep using
the compile-time buffer size.) -/
theorem space_invariant_amended (ops : List Op)
    (hops : ∀ o ∈ ops, o.isResize = false) :
    0 ≤ used_space (runOps fresh0 ops).2 ∧
    used_space (runOps fresh0 ops).2 ≤ get_buffer_size (runOps fresh0 ops).2 ∧
    free_space (runOps fresh0 ops).2 + used_space (runOps fresh0 ops).2 =
      get_buffer_size (runOps fresh0 ops).2 - 1 := by
  obtain ⟨h1, h2, h3⟩ := runOps_wf ops fresh0 ⟨by decide, by decide, rfl⟩ hops
  have hb : BUFFER_SIZE = 1024 := rfl
  rw [hb] at h1 h2 h3
  unfold used_space free_space get_buffer_size
  by_cases hc : (runOps fresh0 ops).2.tail ≥ (runOps fresh0 ops).2.head
  · simp only [if_pos hc]
    refine ⟨by omega, by omega, by omega⟩
  · simp only [if_neg hc]
    refine ⟨by omega, by omega, by omega⟩

/-- Witness for `space_invariant_amended` on the sequence: write 3 bytes,
read 1, open read-only. -/
theorem space_invariant_witness :
    (∀ o ∈ [Op.doWrite [1, 2, 3], Op.doRead 1, Op.doOpen AccMode.rdonly],
      o.isResize = false) ∧
    (0 ≤ used_space (runOps fresh0
        [Op.doWrite [1, 2, 3], Op.doRead 1, Op.doOpen AccMode.rdonly]).2 ∧
      used_space (runOps fresh0
          [Op.doWrite [1, 2, 3], Op.doRead 1, Op.doOpen AccMode.rdonly]).2 ≤
        get_buffer_size (runOps fresh0
          [Op.doWrite [1, 2, 3], Op.doRead 1, Op.doOpen AccMode.rdonly]).2 ∧
      free_space (runOps fresh0
            [Op.doWrite [1, 2, 3], Op.doRead 1, Op.doOpen AccMode.rdonly]).2 +
          used_space (runOps fresh0
            [Op.doWrite [1, 2, 3], Op.doRead 1, Op.doOpen AccMode.rdonly]).2 =
        get_buffer_size (runOps fresh0
            [Op.doWrite [1, 2, 3], Op.doRead 1, Op.doOpen AccMode.rdonly]).2 - 1) :=
  ⟨by decide,
    space_invariant_amended [Op.doWrite [1, 2, 3], Op.doRead 1, Op.doOpen AccMode.rdonly]
      (by decide)⟩

/-- Overwrite only the `max_processes` field, as `SET_MAX_NR_PROCESSES`
does; two states differing only in the stored `max_processes` value are
`d` and `setMaxProc d m`. -/
def setMaxProc (d : Dm510) (m : Int) : Dm510 := { d with max_processes := m }

theorem read_setMax (d : Dm510) (m : Int) (n : Nat) :
    dm510_read (setMaxProc d m) n =
      (dm510_read d n).map (fun p => (p.1, setMaxProc p.2 m)) := by
  simp only [dm510_read]
  dsimp only [setMaxProc]
  by_cases hc : d.head = d.tail
  · simp [hc]
  · simp [hc]

theorem write_setMax (d : Dm510) (m : Int) (buf : List Nat) :
    dm510_write (setMaxProc d m) buf =
      (dm510_write d buf).map (fun p => (p.1, setMaxProc p.2 m)) := by
  simp only [dm510_write]
  dsimp only [setMaxProc]
  by_cases hc : (d.tail + 1) % BUFFER_SIZE = d.head
  · simp [hc]
  · simp [hc]

theorem open_setMax (d : Dm510) (m : Int) (mode : AccMode) :
    (dm510_open (setMaxProc d m) mode).1 = (dm510_open d mode).1 ∧
    (dm510_open (setMaxProc d m) mode).2 = setMaxProc (dm510_open d mode).2 m := by
  cases mode with
  | rdonly => exact ⟨rfl, rfl⟩
  | wronly =>
    simp only [dm510_open]
    dsimp only [setMaxProc]
    by_cases hc : d.nwriters ≠ 0
    · simp [hc]
    · simp [hc]
  | rdwr => exact ⟨rfl, rfl⟩

theorem runStep_setMax (d : Dm510) (m : Int) (o : Op) (ho : o.isUserOp = true) :
    runStep (setMaxProc d m) o = ((runStep d o).1, setMaxProc (runStep d o).2 m) := by
  cases o with
  | doRead n =>
    simp only [runStep, read_setMax]
    cases hrd : dm510_read d n with
    | none => rfl
    | some p => rfl
  | doWrite buf =>
    simp only [runStep, write_setMax]
    cases hwr : dm510_write d buf with
    | none => rfl
    | some p => rfl
  | doOpen mode =>
    have h := open_setMax d m mode
    simp only [runStep]
    rw [h.1, h.2]
  | doResize n => simp [Op.isUserOp] at ho
  | doSetMax n => simp [Op.isUserOp] at ho

/-- C10 (confirmed): the stored `max_processes` value is never enforced:
a run of any sequence of open, read and write operations started from a
state differing only in `max_processes` produces the identical list of
results (return values and bytes delivered) and an identical final state
up to that same `max_processes` field. -/
theorem max_processes_noninterference (ops : List Op) (d : Dm510) (m : Int)
    (hops : ∀ o ∈ ops, o.isUserOp = true) :
    (runOps (setMaxProc d m) ops).1 = (runOps d ops).1 ∧
    (runOps (setMaxProc d m) ops).2 = setMaxProc (runOps d ops).2 m := by
  induction ops generalizing d with
  | nil => exact ⟨rfl, rfl⟩
  | cons o rest ih =>
    have hstep := runStep_setMax d m o (hops o (by simp))
    have hrec := ih (runStep d o).2 (fun x hx => hops x (by simp [hx]))
    simp only [runOps]
    rw [hstep]
    constructor
    · show (runStep d o).1 :: (runOps (setMaxProc (runStep d o).2 m) rest).1 =
        (runStep d o).1 :: (runOps (runStep d o).2 rest).1
      rw [hrec.1]
    · show (runOps (setMaxProc (runStep d o).2 m) rest).2 =
        setMaxProc (runOps (runStep d o).2 rest).2 m
      exact hrec.2

/-- Witness for `max_processes_noninterference`: open read-only, write a
byte, read it back, with `max_processes` 0 versus 5. -/
theorem max_processes_noninterference_witness :
    (∀ o ∈ [Op.doOpen AccMode.rdonly, Op.doWrite [7], Op.doRead 1],
      o.isUserOp = true) ∧
    ((runOps (setMaxProc fresh0 5)
          [Op.doOpen AccMode.rdonly, Op.doWrite [7], Op.doRead 1]).1 =
        (runOps fresh0 [Op.doOpen AccMode.rdonly, Op.doWrite [7], Op.doRead 1]).1 ∧
      (runOps (setMaxProc fresh0 5)
          [Op.doOpen AccMode.rdonly, Op.doWrite [7], Op.doRead 1]).2 =
        setMaxProc
          (runOps fresh0 [Op.doOpen AccMode.rdonly, Op.doWrite [7], Op.doRead 1]).2 5) :=
  ⟨by decide,
    max_processes_noninterference [Op.doOpen AccMode.rdonly, Op.doWrite [7], Op.doRead 1]
      fresh0 5 (by decide)⟩
